import Mathlib

/-
Formal model of the pyembc layout/codec engine (src/pyembc/pyembc.py).

The module builds ctypes-backed struct/union classes from annotated field
declarations.  We shallowly embed:

  * the compiled layout data (`PyembcFieldType` objects, endianness tag),
  * the bitfield-grouping pass of `_generate_class`,
  * value validation (`_check_value_for_type`) and the generated
    `__setattr__` / `__init__`,
  * the generated codec methods `stream()` / `parse()`.

Machine bytes are modelled as `Nat` (values < 256); Python integers as
`Int`.  A ctypes instance's storage is a byte list whose layout follows
the ctypes offset/alignment rules for `_pack_`-capped structures; the
generated `stream()` is `bytes(self)` (a copy of that storage) and
`parse()` is `ctypes.memmove(addressof(self), stream, len(stream))`.

Python exception classes are modelled by `PyErr` (run-time errors raised
by the generated methods) and `BuildErr` (errors raised while the class
decorator runs).  The spec's error taxonomy maps onto them as follows:
ValueOutOfRange = ValueError, TypeMismatch = TypeError, InsufficientData
has no counterpart in the code, BitfieldOverflow = SyntaxError with the
message Bitfield overflow, IncompleteBitfieldGroup = SyntaxError with the
message Incomplete bitfield definition, MixedBitfieldBaseType =
SyntaxError with the message Bitfields must be of same type,
EndiannessMismatchInUnion = TypeError raised by the union endianness
check, ArgumentError = TypeError raised by the generated init.
-/

deriving instance DecidableEq for Except

namespace Pyembc

/-- Byte order tag.  In the source this is the string parameter
`endian` of the decorators, restricted to little or big. -/
inductive Endian where
  | little : Endian
  | big : Endian
deriving DecidableEq, Repr

/-- A ctypes simple integer type (`ctypes._SimpleCData` subclass such as
`c_uint8`, `c_int16`, ...): a byte width together with signedness.  The
struct char of the source (`_type_` attribute) is lower case exactly for
the signed types; `struct.calcsize` of that char is `width`. -/
structure CTy where
  width : Nat
  signed : Bool
deriving DecidableEq, Repr

def u8 : CTy := ⟨1, false⟩
def u16 : CTy := ⟨2, false⟩
def u32 : CTy := ⟨4, false⟩
def u64 : CTy := ⟨8, false⟩
def s8 : CTy := ⟨1, true⟩
def s16 : CTy := ⟨2, true⟩
def s32 : CTy := ⟨4, true⟩

mutual
/-- A resolved field type of a compiled layout: either a ctypes scalar or
a nested pyembc structure class (which carries its own endianness, its
`_pack_` value and its own ordered fields). -/
inductive FTy where
  | scalar (t : CTy) : FTy
  | nested (endian : Endian) (pack : Nat) (fields : Fields) : FTy
deriving DecidableEq, Repr
/-- Ordered field list of a structure layout (the `_fields_` /
`__pyembc_fields__` order). -/
inductive Fields where
  | fnil : Fields
  | fcons (name : String) (ty : FTy) (rest : Fields) : Fields
deriving DecidableEq, Repr
end

mutual
/-- A value held by an instance: an integer for a scalar field, or a
sub-instance for a nested field. -/
inductive Value where
  | vint (v : Int) : Value
  | vstruct (vs : Values) : Value
deriving DecidableEq, Repr
/-- Values of the fields of a structure instance, in declaration order. -/
inductive Values where
  | vnil : Values
  | vcons (v : Value) (rest : Values) : Values
deriving DecidableEq, Repr
end

/-- Little-endian byte image of a natural number, `w` bytes. -/
def toBytesLE : Nat → Nat → List Nat
  | 0, _ => []
  | w + 1, n => n % 256 :: toBytesLE w (n / 256)

/-- Natural number denoted by a little-endian byte list. -/
def fromBytesLE : List Nat → Nat
  | [] => 0
  | b :: r => b + 256 * fromBytesLE r

/-- Byte image of the integer `v` stored in a `w`-byte scalar slot with
byte order `e`: ctypes stores the two's-complement representation
`v mod 2^(8w)` in the structure's byte order. -/
def encInt (e : Endian) (w : Nat) (v : Int) : List Nat :=
  let n : Nat := (v % ((2 : Int) ^ (8 * w))).toNat
  match e with
  | .little => toBytesLE w n
  | .big => (toBytesLE w n).reverse

/-- Integer read back from a `w`-byte scalar slot (unsigned value, then
sign correction when the type is signed), as ctypes field access does. -/
def decInt (e : Endian) (signed : Bool) (w : Nat) (bs : List Nat) : Int :=
  let n : Nat :=
    match e with
    | .little => fromBytesLE bs
    | .big => fromBytesLE bs.reverse
  if signed ∧ 2 ^ (8 * w - 1) ≤ n then (n : Int) - 2 ^ (8 * w) else (n : Int)

/-- Zero padding bytes. -/
def zeros (n : Nat) : List Nat := List.replicate n 0

/-- Least multiple of `a` that is at least `n` (ctypes offset rounding). -/
def alignUp (n a : Nat) : Nat := (n + a - 1) / a * a

mutual
/-- Natural alignment a field contributes inside a structure, before the
`_pack_` cap: the byte width for scalars, the computed structure
alignment for nested layouts (as ctypes computes it). -/
def alignOf : FTy → Nat
  | .scalar t => t.width
  | .nested _ pack fs => alignFields pack fs
/-- Alignment of a structure with `_pack_ = pack`: maximum over the
fields of the pack-capped field alignment (1 for an empty structure). -/
def alignFields (pack : Nat) : Fields → Nat
  | .fnil => 1
  | .fcons _ t r => max (min (alignOf t) pack) (alignFields pack r)
end

mutual
/-- Byte size of a field (ctypes.sizeof): scalars take their width, a
nested structure takes its rounded-up total size. -/
def ctSizeof : FTy → Nat
  | .scalar t => t.width
  | .nested _ pack fs => alignUp (sizeFields pack 0 fs) (alignFields pack fs)
/-- End offset after laying the fields out from byte offset `pos`: each
field starts at the next multiple of its pack-capped alignment. -/
def sizeFields (pack : Nat) (pos : Nat) : Fields → Nat
  | .fnil => pos
  | .fcons _ t r =>
      sizeFields pack (alignUp pos (min (alignOf t) pack) + ctSizeof t) r
end

/-- Range of Python ints accepted by `struct.pack` for the struct char of
`t`; `_check_value_for_type` turns a failure into ValueError. -/
def packable (t : CTy) (v : Int) : Bool :=
  if t.signed then
    decide (-(2 ^ (8 * t.width - 1)) ≤ v) && decide (v < 2 ^ (8 * t.width - 1))
  else
    decide (0 ≤ v) && decide (v < (2 : Int) ^ (8 * t.width))

mutual
/-- Every stored value fits its field: scalar slots hold an in-range
integer (what assignment validation lets through), nested slots hold a
matching sub-structure value. -/
def validV : FTy → Value → Bool
  | .scalar t, .vint v => packable t v
  | .nested _ _ fs, .vstruct vs => validFs fs vs
  | _, _ => false
def validFs : Fields → Values → Bool
  | .fnil, .vnil => true
  | .fcons _ t r, .vcons v vs => validV t v && validFs r vs
  | _, _ => false
end

mutual
/-- Layout wellformedness: scalar widths are the ctypes simple integer
widths and `_pack_` is positive. -/
def wfT : FTy → Bool
  | .scalar t => decide (t.width = 1 ∨ t.width = 2 ∨ t.width = 4 ∨ t.width = 8)
  | .nested _ pack fs => decide (0 < pack) && wfFs pack fs
def wfFs (pack : Nat) : Fields → Bool
  | .fnil => true
  | .fcons _ t r => wfT t && wfFs pack r
end

mutual
/-- Backing storage of an instance holding value `v` of layout `t`: the
memory image ctypes maintains, scalar slots in the byte order `e` of the
enclosing structure, nested structures in their own byte order, padding
bytes zero (the allocation is zero-initialized and setters never touch
padding).  The generated `stream()` of a structure returns exactly this
image (`bytes(self)`). -/
def encV (e : Endian) : FTy → Value → List Nat
  | .scalar t, .vint v => encInt e t.width v
  | .nested e2 pack fs, .vstruct vs =>
      let body := encFs e2 pack 0 fs vs
      body ++ zeros (ctSizeof (.nested e2 pack fs) - body.length)
  | _, _ => []
def encFs (e : Endian) (pack pos : Nat) : Fields → Values → List Nat
  | .fcons _ t r, .vcons v vs =>
      let off := alignUp pos (min (alignOf t) pack)
      zeros (off - pos) ++ encV e t v ++ encFs e pack (off + ctSizeof t) r vs
  | _, _ => []
end

mutual
/-- Field values read back from a byte image: ctypes field access
unpacks each scalar slot from its offset with the structure's byte
order.  After `parse()` replaced the storage this is what the instance's
attributes return. -/
def decV (e : Endian) : FTy → List Nat → Value
  | .scalar t, bs => .vint (decInt e t.signed t.width (bs.take t.width))
  | .nested e2 pack fs, bs => .vstruct (decFs e2 pack 0 fs bs)
def decFs (e : Endian) (pack pos : Nat) : Fields → List Nat → Values
  | .fnil, _ => .vnil
  | .fcons _ t r, bs =>
      let off := alignUp pos (min (alignOf t) pack)
      .vcons (decV e t ((bs.drop (off - pos)).take (ctSizeof t)))
        (decFs e pack (off + ctSizeof t) r (bs.drop (off - pos + ctSizeof t)))
end

/-- Python exception classes raised by the generated instance methods. -/
inductive PyErr where
  | typeError : PyErr
  | valueError : PyErr
  | keyError : PyErr
deriving DecidableEq, Repr

/-- Possible Python arguments of the generated `parse()` method: a bytes
object, or buffer-like values that are not `bytes` instances. -/
inductive PyStream where
  | bytes (data : List Nat) : PyStream
  | bytearray (data : List Nat) : PyStream
  | memoryview (data : List Nat) : PyStream
deriving DecidableEq, Repr

/-- Generated `parse()` method: raise TypeError unless the argument is a
`bytes` instance, then `ctypes.memmove(ctypes.addressof(self), stream,
len(stream))`, which overwrites the first `len(stream)` bytes of the
instance's storage and leaves the rest untouched.  There is no length
check of any kind.  The model covers `len(stream) ≤ sizeof(self)`; a
longer stream would write past the allocation (undefined behaviour). -/
def parseS (stream : PyStream) (st : List Nat) : Except PyErr (List Nat) :=
  match stream with
  | .bytes data => .ok (data ++ st.drop data.length)
  | _ => .error .typeError

/-- Generated `stream()` method of a structure class: `bytes(self)`, a
copy of the backing storage. -/
def streamStruct (st : List Nat) : List Nat := st

/-- Generated `stream()` method of a union class: `bytes(self)` when the
class' saved endianness equals `sys.byteorder`, otherwise the reversed
buffer.  (The decorator `pyembc_union` only ever admits the former
case.) -/
def streamUnion (sysE uE : Endian) (st : List Nat) : List Nat :=
  if uE = sysE then st else st.reverse

/-- Base type stored in a `PyembcFieldType`: a ctypes simple type, or a
pyembc-generated structure class (recognised via its
`__pyembc_fields__` attribute). -/
inductive BaseTy where
  | simple (t : CTy) : BaseTy
  | pyembcS (l : FTy) : BaseTy
deriving DecidableEq, Repr

/-- Model of the `PyembcFieldType` descriptor object: base type, the
declared bit width for bitfields (`bit_size`, None otherwise) and the
computed `bit_offset` (None until some bitfield set it; the builder
stores the enclosing loop's current value even for later non-bitfield
fields, and stores a negative number for a group-closing bitfield). -/
structure PyField where
  base : BaseTy
  bitSize : Option Nat
  bitOffset : Option Int
deriving DecidableEq, Repr

/-- Test the source applies through `_is_pyembc_type`: the base type has
the `__pyembc_fields__` attribute. -/
def isPyembcType (f : PyField) : Bool :=
  match f.base with
  | .pyembcS _ => true
  | _ => false

/-- Python values that can reach the generated `__setattr__`: plain
ints, pyembc instances (layout plus current value), the
`PyembcFieldType` descriptor objects themselves, and class objects. -/
inductive PyVal where
  | int (v : Int) : PyVal
  | inst (l : FTy) (v : Value) : PyVal
  | ftObj (f : PyField) : PyVal
  | clsObj (l : FTy) : PyVal
deriving DecidableEq, Repr

/-- Python's `isinstance(value, classinfo)`: when `classinfo` is not a
type (nor a tuple of types) the call itself raises TypeError.  A
`PyembcFieldType` descriptor object is not a type. -/
def pyIsinstance (value : PyVal) (classinfo : PyVal) : Except PyErr Bool :=
  match classinfo with
  | .clsObj l =>
      .ok (match value with
           | .inst l2 _ => l2 = l
           | _ => false)
  | _ => .error .typeError

/-- Model of `_check_value_for_type`: for a ctypes simple base type, run
the value through `struct.pack` (failure becomes ValueError), then for a
bitfield check the declared-bit-width range, whose bounds come from the
base type's signedness (`min_raw <= value <= max_raw`, else ValueError).
For any other base type the function raises TypeError.  The Python
bounds `2 ** (bit_size - 1)` agree with the `Nat` subtraction used here
for every `bit_size ≥ 1`. -/
def check_value_for_type (f : PyField) (value : PyVal) : Except PyErr Unit :=
  match f.base with
  | .simple t =>
      let pk : Bool := match value with
        | .int v => packable t v
        | _ => false
      if pk then
        match f.bitSize, value with
        | some n, .int v =>
            let mx : Int := if t.signed then 2 ^ (n - 1) - 1 else 2 ^ n - 1
            let mn : Int := if t.signed then -(2 ^ (n - 1)) else 0
            if mn ≤ v ∧ v ≤ mx then .ok () else .error .valueError
        | _, _ => .ok ()
      else .error .valueError
  | .pyembcS _ => .error .typeError

/-- Per-field body of the generated `__setattr__`: pyembc-typed fields
run `isinstance(value, field_type)` — where `field_type` is the
`PyembcFieldType` descriptor looked up in `__pyembc_fields__`, not a
class — and raise TypeError if it returns false; other fields run
`_check_value_for_type`; only then is the value stored. -/
def setattrField (f : PyField) (value : PyVal) : Except PyErr PyVal :=
  if isPyembcType f then do
    let b ← pyIsinstance value (.ftObj f)
    if b then pure value else .error .typeError
  else do
    check_value_for_type f value
    pure value

/-- One field of a live instance: name, descriptor and current value. -/
structure Slot where
  name : String
  fty : PyField
  val : PyVal
deriving DecidableEq, Repr

/-- A live instance: its fields in declaration order with their current
values (`__pyembc_fields__` plus the backing ctypes storage). -/
abbrev Inst := List Slot

/-- Generated `__setattr__` on an instance: look the name up in
`__pyembc_fields__` (KeyError when absent), validate, store.  An
exception leaves every stored value as it was. -/
def setattrI : Inst → String → PyVal → Except PyErr Inst
  | [], _, _ => .error .keyError
  | s :: rest, n, v =>
      if n = s.name then
        (fun v2 => { s with val := v2 } :: rest) <$> setattrField s.fty v
      else
        (fun r => s :: r) <$> setattrI rest n v

/-- Sequential `setattr` calls, as the generated `__init__` performs. -/
def setAll : Inst → List (String × PyVal) → Except PyErr Inst
  | inst, [] => .ok inst
  | inst, (n, v) :: rest => do setAll (← setattrI inst n v) rest

/-- Keyword lookup of the generated `__init__`: `kwargs[field_name]`,
with the KeyError turned into TypeError. -/
def kwLookup (kwargs : List (String × PyVal)) (n : String) : Except PyErr PyVal :=
  match kwargs.find? (fun p => p.1 = n) with
  | some p => .ok p.2
  | none => .error .typeError

def kwArgsFor (kwargs : List (String × PyVal)) :
    List String → Except PyErr (List (String × PyVal))
  | [] => .ok []
  | n :: rest => do
      let v ← kwLookup kwargs n
      let r ← kwArgsFor kwargs rest
      .ok ((n, v) :: r)

/-- Generated `__init__` run on a freshly allocated (ctypes
zero-initialized) instance: all positional or all keyword arguments,
counts must equal the field count, each argument stored through
`__setattr__`; violations raise TypeError. -/
def initInst (inst : Inst) (args : List PyVal)
    (kwargs : List (String × PyVal)) : Except PyErr Inst :=
  let fnames := inst.map Slot.name
  if args ≠ [] then
    if kwargs ≠ [] then .error .typeError
    else if args.length = fnames.length then
      setAll inst (fnames.zip args)
    else .error .typeError
  else if kwargs ≠ [] then
    if kwargs.length = fnames.length then do
      let kvs ← kwArgsFor kwargs fnames
      setAll inst kvs
    else .error .typeError
  else .ok inst

/-- Errors raised while the class decorator builds a layout, tagged by
the exception class and message the source raises. -/
inductive BuildErr where
  /-- SyntaxError: Bitfields must be of same type. -/
  | mixedBitfield : BuildErr
  /-- SyntaxError: Bitfield overflow. -/
  | bitfieldOverflow : BuildErr
  /-- SyntaxError: Incomplete bitfield definition. -/
  | incompleteBitfield : BuildErr
  /-- TypeError: Only the same endianness is supported in a Union. -/
  | endianMismatch : BuildErr
  /-- NotImplementedError raised by `pyembc_union` for a byte order
  other than the host's. -/
  | notImplementedError : BuildErr
deriving DecidableEq, Repr

/-- Target kind handed to `_generate_class`. -/
inductive Target where
  | struct : Target
  | union : Target
deriving DecidableEq, Repr

/-- A source-level field declaration (class annotation): a plain ctypes
simple type, a `(type, bit_size)` tuple, or a pyembc-generated structure
class. -/
inductive DeclTy where
  | plain (t : CTy) : DeclTy
  | bitfield (t : CTy) (bits : Nat) : DeclTy
  | sub (l : FTy) : DeclTy
deriving DecidableEq, Repr

abbrev Decl := String × DeclTy

/-- Loop state of the bitfield-grouping pass in `_generate_class`:
`counter` is `_bitfield_counter`, `baseBits` is
`_bitfield_basetype_bitsize`, `baseTy` is `_bitfield_basetype`,
`bitOffset` the enclosing `bit_offset` local, `firstIsLittle` the
`_first_endian` of the union endianness check. -/
structure BState where
  counter : Nat := 0
  baseBits : Nat := 0
  baseTy : Option CTy := none
  bitOffset : Option Int := none
  firstIsLittle : Option Bool := none
deriving DecidableEq, Repr

/-- Whether `_is_little_endian` holds of a generated structure class:
the class has `_swappedbytes_` exactly when its byte order differs from
the host's, so the check returns (endianness = little) on every host. -/
def isLittleClass : FTy → Bool
  | .nested e _ _ => e = .little
  | .scalar _ => false

/-- Structure-class test used by the union endianness check
(`issubclass(base_type, ctypes.Structure)`). -/
def declIsStructure : DeclTy → Bool
  | .sub _ => true
  | _ => false

def declLittle : DeclTy → Bool
  | .sub l => isLittleClass l
  | _ => false

/-- Bitfield-grouping branch of the field loop: a `(type, bits)` tuple
either opens a group (when `_bitfield_counter` is 0; no width check
happens here) or continues one (same base type required, then the
overflow check, then the group-closing equality check, and finally the
`bit_offset` assignment from the possibly reset counter); a non-tuple
declaration while a group is open raises the incomplete-group error. -/
def bitfieldPass (st : BState) : DeclTy → Except BuildErr BState
  | .bitfield t bits =>
      if st.counter = 0 then
        .ok { st with counter := bits, baseBits := 8 * t.width,
                      baseTy := some t, bitOffset := some 0 }
      else
        let c := st.counter + bits
        if some t ≠ st.baseTy then
          .error .mixedBitfield
        else if st.baseBits < c then
          .error .bitfieldOverflow
        else if c = st.baseBits then
          .ok { st with counter := 0, baseBits := 0, baseTy := none,
                        bitOffset := some (0 - (bits : Int)) }
        else
          .ok { st with counter := c,
                        bitOffset := some ((c : Int) - (bits : Int)) }
  | _ =>
      if 0 < st.counter then .error .incompleteBitfield
      else .ok st

/-- Union endianness consistency check: for UNION targets, every member
that is a ctypes Structure subclass must agree with the first such
member on `_is_little_endian`. -/
def unionEndianPass (target : Target) (st : BState) (dt : DeclTy) :
    Except BuildErr BState :=
  if target = .union ∧ declIsStructure dt then
    match st.firstIsLittle with
    | none => .ok { st with firstIsLittle := some (declLittle dt) }
    | some fe =>
        if declLittle dt ≠ fe then .error .endianMismatch
        else .ok st
  else .ok st

/-- One iteration of the field loop of `_generate_class`, in source
order: the bitfield-grouping branch, then the incomplete-group check on
the last declaration, then the union endianness consistency check; the
produced `PyembcFieldType` records the current `bit_size` and
`bit_offset`. -/
def buildStep (target : Target) (isLast : Bool) (st : BState) (d : Decl) :
    Except BuildErr (BState × (String × PyField)) :=
  match bitfieldPass st d.2 with
  | .error e => .error e
  | .ok st1 =>
      if isLast ∧ 0 < st1.counter then
        .error .incompleteBitfield
      else
        let base : BaseTy := match d.2 with
          | .plain t => .simple t
          | .bitfield t _ => .simple t
          | .sub l => .pyembcS l
        let bsz : Option Nat := match d.2 with
          | .bitfield _ bits => some bits
          | _ => none
        match unionEndianPass target st1 d.2 with
        | .error e => .error e
        | .ok st2 => .ok (st2, (d.1, ⟨base, bsz, st1.bitOffset⟩))

/-- The field loop of `_generate_class` over the remaining declarations
(`field_cnt == len(annotations) - 1` is exactly: no declaration
follows). -/
def buildLoop (target : Target) (st : BState) :
    List Decl → Except BuildErr (List (String × PyField))
  | [] => .ok []
  | d :: rest =>
      match buildStep target rest.isEmpty st d with
      | .error e => .error e
      | .ok (st2, f) =>
          match buildLoop target st2 rest with
          | .error e => .error e
          | .ok fl => .ok (f :: fl)

/-- The compiled class a successful decorator run produces: its kind,
its saved `__pyembc_endian__`, its `_pack_` and its resolved fields. -/
structure GenClass where
  target : Target
  endian : Endian
  pack : Nat
  fields : List (String × PyField)
deriving DecidableEq, Repr

/-- Model of `_generate_class`: run the field loop from the initial
state and record endianness and pack on the produced class.  (The
endianness argument is already one of the two admissible tags here, so
the ValueError branch for an invalid endianness string is
unrepresentable.) -/
def generateClass (target : Target) (endian : Endian) (pack : Nat)
    (decls : List Decl) : Except BuildErr GenClass :=
  (fun fl => ⟨target, endian, pack, fl⟩) <$> buildLoop target {} decls

/-- Decorator `pyembc_struct(endian=..., pack=...)`. -/
def pyembc_struct_build (endian : Endian) (pack : Nat) (decls : List Decl) :
    Except BuildErr GenClass :=
  generateClass .struct endian pack decls

/-- Decorator `pyembc_union(endian=...)`: raises NotImplementedError
when the requested byte order differs from `sys.byteorder` (modelled by
`sysE`), otherwise builds with target UNION and the default pack. -/
def pyembc_union_build (sysE endian : Endian) (decls : List Decl) :
    Except BuildErr GenClass :=
  if endian ≠ sysE then .error .notImplementedError
  else generateClass .union endian 4 decls

/-- Success test for a build result. -/
def isOk {ε α : Type} : Except ε α → Bool
  | .ok _ => true
  | .error _ => false

/-- Error projection of a build result. -/
def errOf {ε α : Type} : Except ε α → Option ε
  | .ok _ => none
  | .error e => some e

/-! Helper lemmas about the byte-level codec. -/

theorem toBytesLE_length : ∀ (w n : Nat), (toBytesLE w n).length = w
  | 0, _ => rfl
  | w + 1, n => by simp [toBytesLE, toBytesLE_length w]

theorem encInt_length (e : Endian) (w : Nat) (v : Int) :
    (encInt e w v).length = w := by
  cases e <;> simp [encInt, toBytesLE_length]

theorem fromBytesLE_toBytesLE : ∀ (w n : Nat), n < 256 ^ w →
    fromBytesLE (toBytesLE w n) = n
  | 0, n, h => by
      simp only [pow_zero, Nat.lt_one_iff] at h
      simp [toBytesLE, fromBytesLE, h]
  | w + 1, n, h => by
      have hdiv : n / 256 < 256 ^ w := by
        apply Nat.div_lt_of_lt_mul
        rw [pow_succ] at h
        omega
      simp only [toBytesLE, fromBytesLE, fromBytesLE_toBytesLE w (n / 256) hdiv]
      omega

theorem pow256_cast (w : Nat) : ((256 ^ w : Nat) : Int) = 2 ^ (8 * w) := by
  push_cast
  rw [show (256 : Int) = 2 ^ 8 by norm_num, ← pow_mul]

/-- Storing an integer accepted by `struct.pack` into a `w`-byte scalar
slot and reading it back through ctypes field access returns the same
integer, for both byte orders. -/
theorem decInt_encInt (e : Endian) (s : Bool) (w : Nat) (v : Int)
    (hw : 1 ≤ w) (hv : packable ⟨w, s⟩ v = true) :
    decInt e s w (encInt e w v) = v := by
  have hM : (0 : Int) < 2 ^ (8 * w) := by positivity
  have h0 : 0 ≤ v % 2 ^ (8 * w) := Int.emod_nonneg v (ne_of_gt hM)
  have h1 : v % 2 ^ (8 * w) < 2 ^ (8 * w) := Int.emod_lt_of_pos v hM
  have h256 := pow256_cast w
  have hlt : (v % 2 ^ (8 * w)).toNat < 256 ^ w := by omega
  have hfb : ∀ bs, bs = toBytesLE w (v % 2 ^ (8 * w)).toNat →
      fromBytesLE bs = (v % 2 ^ (8 * w)).toNat := by
    intro bs hbs
    rw [hbs, fromBytesLE_toBytesLE w _ hlt]
  have hsplit : (2 : Int) ^ (8 * w) = 2 ^ (8 * w - 1) * 2 := by
    rw [← pow_succ]
    congr 1
    omega
  have hKc : ((2 ^ (8 * w - 1) : Nat) : Int) = 2 ^ (8 * w - 1) := by push_cast; rfl
  have hgoal : (if s ∧ 2 ^ (8 * w - 1) ≤ (v % 2 ^ (8 * w)).toNat then
      (((v % 2 ^ (8 * w)).toNat : Int) - 2 ^ (8 * w)) else
      ((v % 2 ^ (8 * w)).toNat : Int)) = v := by
    cases s with
    | false =>
        simp only [packable] at hv
        norm_num at hv
        have hmod : v % 2 ^ (8 * w) = v := Int.emod_eq_of_lt hv.1 hv.2
        simp [hmod, Int.toNat_of_nonneg hv.1]
    | true =>
        simp only [packable] at hv
        norm_num at hv
        rcases le_or_lt 0 v with hpos | hneg
        · have hmod : v % 2 ^ (8 * w) = v :=
            Int.emod_eq_of_lt hpos (by omega)
          split <;> omega
        · have hmod : v % 2 ^ (8 * w) = v + 2 ^ (8 * w) := by
            have h2 : (v + 2 ^ (8 * w)) % 2 ^ (8 * w) = v % 2 ^ (8 * w) := by
              simp [Int.add_mul_emod_self_left]
            rw [← h2]
            exact Int.emod_eq_of_lt (by omega) (by omega)
          have htn : ((v % 2 ^ (8 * w)).toNat : Int) = v + 2 ^ (8 * w) := by
            rw [hmod]
            exact Int.toNat_of_nonneg (by omega)
          split
          · rw [htn]
            ring
          · next h =>
              exfalso
              apply h
              refine ⟨rfl, ?_⟩
              have hc : ((2 ^ (8 * w - 1) : Nat) : Int) ≤
                  ((v % 2 ^ (8 * w)).toNat : Int) := by
                rw [hKc, htn, hsplit]
                linarith [hv.1]
              exact_mod_cast hc
  cases e with
  | little =>
      simp only [encInt, decInt]
      rw [hfb _ rfl]
      exact hgoal
  | big =>
      simp only [encInt, decInt, List.reverse_reverse]
      rw [hfb _ rfl]
      exact hgoal

theorem le_alignUp (n : Nat) {a : Nat} (ha : 0 < a) : n ≤ alignUp n a := by
  unfold alignUp
  rw [Nat.mul_comm]
  have key := Nat.div_add_mod (n + a - 1) a
  have h1 : (n + a - 1) % a < a := Nat.mod_lt _ ha
  omega

theorem alignFields_pos (pack : Nat) : ∀ fs : Fields, 1 ≤ alignFields pack fs
  | .fnil => le_refl 1
  | .fcons _ t r => by
      have ih := alignFields_pos pack r
      simp only [alignFields]
      omega

theorem alignOf_pos : ∀ t : FTy, wfT t = true → 1 ≤ alignOf t
  | .scalar t, h => by
      simp only [wfT, decide_eq_true_iff] at h
      simp only [alignOf]
      omega
  | .nested _ pack fs, _ => alignFields_pos pack fs

theorem minAlign_pos {t : FTy} {pack : Nat} (hw : wfT t = true)
    (hp : 0 < pack) : 0 < min (alignOf t) pack := by
  have := alignOf_pos t hw
  omega

theorem sizeFields_ge (pack : Nat) : ∀ (fs : Fields) (pos : Nat),
    wfFs pack fs = true → 0 < pack → pos ≤ sizeFields pack pos fs
  | .fnil, pos, _, _ => le_refl pos
  | .fcons _ t r, pos, hw, hp => by
      simp only [wfFs, Bool.and_eq_true] at hw
      have h1 : pos ≤ alignUp pos (min (alignOf t) pack) :=
        le_alignUp pos (minAlign_pos hw.1 hp)
      have h2 := sizeFields_ge pack r
        (alignUp pos (min (alignOf t) pack) + ctSizeof t) hw.2 hp
      simp only [sizeFields]
      omega

mutual
/-- A valid stored value occupies exactly `ctypes.sizeof` bytes. -/
theorem encV_length (e : Endian) : ∀ (t : FTy) (v : Value),
    wfT t = true → validV t v = true → (encV e t v).length = ctSizeof t
  | .scalar t, .vint v, _, _ => by
      simp [encV, encInt_length, ctSizeof]
  | .scalar _, .vstruct _, _, hv => by simp [validV] at hv
  | .nested _ _ _, .vint _, _, hv => by simp [validV] at hv
  | .nested e2 pack fs, .vstruct vs, hw, hv => by
      simp only [wfT, Bool.and_eq_true, decide_eq_true_iff] at hw
      simp only [validV] at hv
      have hb := encFs_length e2 pack 0 fs vs hw.2 hw.1 hv
      have h0 := sizeFields_ge pack fs 0 hw.2 hw.1
      have h1 : sizeFields pack 0 fs ≤ ctSizeof (.nested e2 pack fs) := by
        simp only [ctSizeof]
        exact le_alignUp _ (alignFields_pos pack fs)
      simp only [encV, zeros, List.length_append, List.length_replicate]
      omega
theorem encFs_length (e : Endian) (pack : Nat) : ∀ (pos : Nat) (fs : Fields)
    (vs : Values), wfFs pack fs = true → 0 < pack → validFs fs vs = true →
    (encFs e pack pos fs vs).length = sizeFields pack pos fs - pos
  | pos, .fnil, .vnil, _, _, _ => by simp [encFs, sizeFields]
  | _, .fnil, .vcons _ _, _, _, hv => by simp [validFs] at hv
  | _, .fcons _ _ _, .vnil, _, _, hv => by simp [validFs] at hv
  | pos, .fcons _ t r, .vcons v vs, hw, hp, hv => by
      simp only [wfFs, Bool.and_eq_true] at hw
      simp only [validFs, Bool.and_eq_true] at hv
      have h1 : pos ≤ alignUp pos (min (alignOf t) pack) :=
        le_alignUp pos (minAlign_pos hw.1 hp)
      have h2 := encV_length e t v hw.1 hv.1
      have h3 := encFs_length e pack
        (alignUp pos (min (alignOf t) pack) + ctSizeof t) r vs hw.2 hp hv.2
      have h4 := sizeFields_ge pack r
        (alignUp pos (min (alignOf t) pack) + ctSizeof t) hw.2 hp
      simp only [encFs, sizeFields, zeros, List.length_append,
        List.length_replicate]
      omega
end

/-! Helper lemmas about the layout builder. -/

theorem isOk_map {ε α β : Type} (f : α → β) (x : Except ε α) :
    isOk (f <$> x) = isOk x := by
  cases x <;> rfl

theorem buildStep_plain_struct (isLast : Bool) (st : BState) (n : String)
    (t : CTy) (hc : st.counter = 0) :
    buildStep .struct isLast st (n, .plain t) =
      .ok (st, (n, ⟨.simple t, none, st.bitOffset⟩)) := by
  simp [buildStep, bitfieldPass, unionEndianPass, declIsStructure, hc]

theorem buildStep_sub_struct (isLast : Bool) (st : BState) (n : String)
    (l : FTy) (hc : st.counter = 0) :
    buildStep .struct isLast st (n, .sub l) =
      .ok (st, (n, ⟨.pyembcS l, none, st.bitOffset⟩)) := by
  simp [buildStep, bitfieldPass, unionEndianPass, declIsStructure, hc]

/-- State after a bitfield opens a fresh group. -/
def openSt (st : BState) (t : CTy) (b : Nat) : BState :=
  { st with counter := b, baseBits := 8 * t.width, baseTy := some t,
            bitOffset := some 0 }

/-- State after a bitfield closes its group exactly. -/
def closeSt (st : BState) (b : Nat) : BState :=
  { st with counter := 0, baseBits := 0, baseTy := none,
            bitOffset := some (0 - (b : Int)) }

/-- State after a bitfield continues an open group. -/
def contSt (st : BState) (b : Nat) : BState :=
  { st with counter := st.counter + b,
            bitOffset := some (((st.counter + b : Nat) : Int) - (b : Int)) }

theorem buildStep_open (st : BState) (n : String) (t : CTy) (b : Nat)
    (hc : st.counter = 0) :
    buildStep .struct false st (n, .bitfield t b) =
      .ok (openSt st t b, (n, ⟨.simple t, some b, some 0⟩)) := by
  simp [buildStep, bitfieldPass, unionEndianPass, declIsStructure, hc, openSt]

theorem buildStep_close (isLast : Bool) (st : BState) (n : String) (t : CTy)
    (b : Nat) (hc : st.counter ≠ 0) (hbt : st.baseTy = some t)
    (heq : st.counter + b = st.baseBits) :
    buildStep .struct isLast st (n, .bitfield t b) =
      .ok (closeSt st b, (n, ⟨.simple t, some b, some (0 - (b : Int))⟩)) := by
  simp only [buildStep, bitfieldPass, if_neg hc]
  rw [if_neg (show ¬(some t ≠ st.baseTy) by simp [hbt]),
    if_neg (show ¬(st.baseBits < st.counter + b) by omega),
    if_pos heq]
  simp [unionEndianPass, declIsStructure, closeSt]

theorem buildStep_continue (st : BState) (n : String) (t : CTy) (b : Nat)
    (hc : st.counter ≠ 0) (hbt : st.baseTy = some t)
    (hlt : st.counter + b < st.baseBits) :
    buildStep .struct false st (n, .bitfield t b) =
      .ok (contSt st b,
           (n, ⟨.simple t, some b,
                some (((st.counter + b : Nat) : Int) - (b : Int))⟩)) := by
  simp only [buildStep, bitfieldPass, if_neg hc]
  rw [if_neg (show ¬(some t ≠ st.baseTy) by simp [hbt]),
    if_neg (show ¬(st.baseBits < st.counter + b) by omega),
    if_neg (show ¬(st.counter + b = st.baseBits) by omega)]
  simp [unionEndianPass, declIsStructure, contSt]

theorem buildStep_overflow (target : Target) (isLast : Bool) (st : BState)
    (n : String) (t : CTy) (b : Nat) (hc : st.counter ≠ 0)
    (hbt : st.baseTy = some t) (hgt : st.baseBits < st.counter + b) :
    buildStep target isLast st (n, .bitfield t b) = .error .bitfieldOverflow := by
  simp only [buildStep, bitfieldPass, if_neg hc]
  rw [if_neg (show ¬(some t ≠ st.baseTy) by simp [hbt]), if_pos hgt]

/-- Bitfield runs written as declarations. -/
def mkRun (t : CTy) (xs : List (String × Nat)) : List Decl :=
  xs.map (fun p => (p.1, DeclTy.bitfield t p.2))

/-- Declaration lists all of whose bitfields come in groups the builder
closes: every group is a run of at least two bitfields of one base type
with positive declared widths summing exactly to the base type's bit
width, and groups and plain fields may follow each other freely. -/
inductive GoodDecls : List Decl → Prop where
  | nil : GoodDecls []
  | plain (n : String) (t : CTy) {rest : List Decl} :
      GoodDecls rest → GoodDecls ((n, .plain t) :: rest)
  | sub (n : String) (l : FTy) {rest : List Decl} :
      GoodDecls rest → GoodDecls ((n, .sub l) :: rest)
  | group (t : CTy) (xs : List (String × Nat)) {rest : List Decl}
      (hlen : 2 ≤ xs.length) (hpos : ∀ p ∈ xs, 0 < p.2)
      (hsum : (xs.map Prod.snd).sum = 8 * t.width) :
      GoodDecls rest → GoodDecls (mkRun t xs ++ rest)

theorem buildLoop_cons_isOk (target : Target) (st : BState) (d : Decl)
    (rest : List Decl) (st2 : BState) (f : String × PyField)
    (hstep : buildStep target rest.isEmpty st d = .ok (st2, f))
    (hrest : isOk (buildLoop target st2 rest) = true) :
    isOk (buildLoop target st (d :: rest)) = true := by
  simp only [buildLoop, hstep]
  cases hres : buildLoop target st2 rest with
  | error e => rw [hres] at hrest; simp [isOk] at hrest
  | ok fl => simp [isOk]

theorem buildLoop_run (t : CTy) :
    ∀ (xs : List (String × Nat)) (st : BState) (rest : List Decl),
    st.baseTy = some t → st.baseBits = 8 * t.width → 0 < st.counter →
    st.counter + (xs.map Prod.snd).sum = 8 * t.width →
    (∀ p ∈ xs, 0 < p.2) → xs ≠ [] →
    (∀ st2 : BState, st2.counter = 0 →
        isOk (buildLoop .struct st2 rest) = true) →
    isOk (buildLoop .struct st (mkRun t xs ++ rest)) = true
  | [], _, _, _, _, _, _, _, hne, _ => absurd rfl hne
  | [x], st, rest, hbt, _, hc, hsum, _, _, hcont => by
      have hxsum : st.counter + x.2 = st.baseBits := by
        simp only [List.map_cons, List.map_nil, List.sum_cons,
          List.sum_nil] at hsum
        omega
      exact buildLoop_cons_isOk .struct st (x.1, .bitfield t x.2) rest _ _
        (buildStep_close rest.isEmpty st x.1 t x.2 (by omega) hbt hxsum)
        (hcont (closeSt st x.2) rfl)
  | x :: y :: tl, st, rest, hbt, hbb, hc, hsum, hpos, _, hcont => by
      simp only [List.map_cons, List.sum_cons] at hsum
      have hy : 0 < y.2 := hpos y (by simp)
      have hrun := buildLoop_run t (y :: tl) (contSt st x.2) rest
        (by simpa [contSt] using hbt) (by simpa [contSt] using hbb)
        (by simp [contSt]; omega)
        (by simp only [List.map_cons, List.sum_cons, contSt]; omega)
        (fun p hp => hpos p (by simp [hp])) (by simp) hcont
      exact buildLoop_cons_isOk .struct st (x.1, .bitfield t x.2)
        (mkRun t (y :: tl) ++ rest) _ _
        (buildStep_continue st x.1 t x.2 (by omega) hbt (by omega)) hrun

theorem buildLoop_good : ∀ (decls : List Decl), GoodDecls decls →
    ∀ st : BState, st.counter = 0 → isOk (buildLoop .struct st decls) = true := by
  intro decls h
  induction h with
  | nil =>
      intro st _
      simp [buildLoop, isOk]
  | plain n t hrest ih =>
      intro st hc
      exact buildLoop_cons_isOk .struct st (n, .plain t) _ _ _
        (buildStep_plain_struct _ st n t hc) (ih st hc)
  | sub n l hrest ih =>
      intro st hc
      exact buildLoop_cons_isOk .struct st (n, .sub l) _ _ _
        (buildStep_sub_struct _ st n l hc) (ih st hc)
  | group t xs hlen hpos hsum hrest ih =>
      intro st hc
      obtain ⟨x, y, tl, rfl⟩ : ∃ x y tl, xs = x :: y :: tl := by
        cases xs with
        | nil => simp at hlen
        | cons x xs2 =>
            cases xs2 with
            | nil => simp at hlen
            | cons y tl => exact ⟨x, y, tl, rfl⟩
      simp only [List.map_cons, List.sum_cons] at hsum
      have hx : 0 < x.2 := hpos x (by simp)
      have hy : 0 < y.2 := hpos y (by simp)
      have hrun := buildLoop_run t (y :: tl) (openSt st t x.2) _
        rfl rfl (by simpa [openSt])
        (by simp only [List.map_cons, List.sum_cons, openSt]; omega)
        (fun p hp => hpos p (by simp [hp])) (by simp) ih
      exact buildLoop_cons_isOk .struct st (x.1, .bitfield t x.2)
        (mkRun t (y :: tl) ++ _) _ _
        (buildStep_open st x.1 t x.2 hc) hrun

mutual
/-- Round trip through the storage image: reading any valid stored
value back from its own byte image (possibly followed by unrelated
trailing bytes) returns the value, for either byte order and arbitrary
nesting. -/
theorem decV_encV (e : Endian) : ∀ (t : FTy) (v : Value) (extra : List Nat),
    wfT t = true → validV t v = true →
    decV e t (encV e t v ++ extra) = v
  | .scalar t, .vint v, extra, hw, hv => by
      simp only [wfT, decide_eq_true_iff] at hw
      simp only [encV, decV]
      rw [List.take_left' (encInt_length e t.width v),
        decInt_encInt e t.signed t.width v (by omega) hv]
  | .scalar _, .vstruct _, _, _, hv => by simp [validV] at hv
  | .nested _ _ _, .vint _, _, _, hv => by simp [validV] at hv
  | .nested e2 pack fs, .vstruct vs, extra, hw, hv => by
      simp only [wfT, Bool.and_eq_true, decide_eq_true_iff] at hw
      simp only [validV] at hv
      simp only [encV, decV, List.append_assoc]
      rw [decFs_encFs e2 pack 0 fs vs _ hw.2 hw.1 hv]
theorem decFs_encFs (e : Endian) (pack : Nat) : ∀ (pos : Nat) (fs : Fields)
    (vs : Values) (extra : List Nat), wfFs pack fs = true → 0 < pack →
    validFs fs vs = true →
    decFs e pack pos fs (encFs e pack pos fs vs ++ extra) = vs
  | _, .fnil, .vnil, _, _, _, _ => by simp [decFs]
  | _, .fnil, .vcons _ _, _, _, _, hv => by simp [validFs] at hv
  | _, .fcons _ _ _, .vnil, _, _, _, hv => by simp [validFs] at hv
  | pos, .fcons _ t r, .vcons v vs, extra, hw, hp, hv => by
      simp only [wfFs, Bool.and_eq_true] at hw
      simp only [validFs, Bool.and_eq_true] at hv
      have hvl := encV_length e t v hw.1 hv.1
      have hv1 : decV e t (encV e t v) = v := by
        have h := decV_encV e t v [] hw.1 hv.1
        rwa [List.append_nil] at h
      have hih := decFs_encFs e pack
        (alignUp pos (min (alignOf t) pack) + ctSizeof t) r vs extra
        hw.2 hp hv.2
      have h1 : (zeros (alignUp pos (min (alignOf t) pack) - pos) ++
          (encV e t v ++
           (encFs e pack (alignUp pos (min (alignOf t) pack) + ctSizeof t) r vs ++
            extra))).drop (alignUp pos (min (alignOf t) pack) - pos) =
          encV e t v ++
          (encFs e pack (alignUp pos (min (alignOf t) pack) + ctSizeof t) r vs ++
           extra) :=
        List.drop_left' (by simp [zeros])
      have h3 : (zeros (alignUp pos (min (alignOf t) pack) - pos) ++
          (encV e t v ++
           (encFs e pack (alignUp pos (min (alignOf t) pack) + ctSizeof t) r vs ++
            extra))).drop (alignUp pos (min (alignOf t) pack) - pos + ctSizeof t) =
          encFs e pack (alignUp pos (min (alignOf t) pack) + ctSizeof t) r vs ++
          extra := by
        have hre : zeros (alignUp pos (min (alignOf t) pack) - pos) ++
            (encV e t v ++
             (encFs e pack (alignUp pos (min (alignOf t) pack) + ctSizeof t) r vs ++
              extra)) =
            (zeros (alignUp pos (min (alignOf t) pack) - pos) ++ encV e t v) ++
            (encFs e pack (alignUp pos (min (alignOf t) pack) + ctSizeof t) r vs ++
             extra) := by
          simp [List.append_assoc]
        rw [hre]
        exact List.drop_left' (by simp [zeros, hvl])
      have h2 : (encV e t v ++
          (encFs e pack (alignUp pos (min (alignOf t) pack) + ctSizeof t) r vs ++
           extra)).take (ctSizeof t) = encV e t v :=
        List.take_left' hvl
      simp only [encFs, decFs, List.append_assoc]
      rw [h1, h3, h2, hv1, hih]
end

/-! Concrete layouts and instances taken from the repository's tests. -/

def SLfields : Fields :=
  .fcons "a" (.scalar u16) (.fcons "b" (.scalar u8) (.fcons "c" (.scalar u8) .fnil))

/-- The little-endian test struct SL(a: u16, b: u8, c: u8). -/
def SL : FTy := .nested .little 4 SLfields

/-- The big-endian struct SB over the same fields. -/
def SB : FTy := .nested .big 4 SLfields

/-- SL(a=0xFFAA, b=1, c=2), the union test value. -/
def slValue : Value :=
  .vstruct (.vcons (.vint 0xFFAA) (.vcons (.vint 1) (.vcons (.vint 2) .vnil)))

/-- A zero-initialized SL value. -/
def slZero : Value :=
  .vstruct (.vcons (.vint 0) (.vcons (.vint 0) (.vcons (.vint 0) .vnil)))

/-- A one-field little-endian layout holding a single u16. -/
def L16 : FTy := .nested .little 4 (.fcons "a" (.scalar u16) .fnil)

def innerFields : Fields :=
  .fcons "ia" (.scalar u8) (.fcons "ib" (.scalar u8) .fnil)

/-- The nested test struct Inner(ia: u8, ib: u8). -/
def innerL : FTy := .nested .little 4 innerFields

def innerVal : Value := .vstruct (.vcons (.vint 1) (.vcons (.vint 2) .vnil))

def innerZero : Value := .vstruct (.vcons (.vint 0) (.vcons (.vint 0) .vnil))

/-- A live Outer instance: a nested pyembc field and a u8 field, both
still zero-initialized. -/
def outerInst : Inst :=
  [⟨"first", ⟨.pyembcS innerL, none, none⟩, .inst innerL innerZero⟩,
   ⟨"second", ⟨.simple u8, none, none⟩, .int 0⟩]

/-- A live instance of the test union U(sl: SL, raw: u32), still
zero-initialized. -/
def unionInst : Inst :=
  [⟨"sl", ⟨.pyembcS SL, none, none⟩, .inst SL slZero⟩,
   ⟨"raw", ⟨.simple u32, none, none⟩, .int 0⟩]

/-- Nested big-endian witness layout Inner2(x: u16, y: s8). -/
def exInnerFields : Fields :=
  .fcons "x" (.scalar u16) (.fcons "y" (.scalar s8) .fnil)

/-- Witness layout Outer2(a: u16, inner: Inner2 big-endian, c: u8) with
padding bytes under the default pack. -/
def exOuterFields : Fields :=
  .fcons "a" (.scalar u16)
    (.fcons "inner" (.nested .big 4 exInnerFields)
      (.fcons "c" (.scalar u8) .fnil))

/-- Witness values a=0xFFAA, inner=(x=0x1234, y=-5), c=7. -/
def exVals : Values :=
  .vcons (.vint 0xFFAA)
    (.vcons (.vstruct (.vcons (.vint 0x1234) (.vcons (.vint (-5)) .vnil)))
      (.vcons (.vint 7) .vnil))

/-! Claim C1. -/

/-- C1 counterexample: for the 2-byte little-endian layout L16 whose
instance holds a = 0xFFAA (storage AA FF), `parse()` of the 1-byte
buffer 01 raises no error at all — no InsufficientData check exists in
the code — and afterwards the field a reads back 0xFF01, not its prior
value 0xFFAA.  This refutes the claim that a short buffer fails with
InsufficientData before mutating anything. -/
theorem c1_counterexample :
    parseS (.bytes [0x01]) [0xAA, 0xFF] = .ok [0x01, 0xFF] ∧
    decV .little L16 [0xAA, 0xFF] = .vstruct (.vcons (.vint 0xFFAA) .vnil) ∧
    decV .little L16 [0x01, 0xFF] = .vstruct (.vcons (.vint 0xFF01) .vnil) :=
  ⟨by decide, by decide, by decide⟩

/-- C1 (amended): `parse()` performs no length check whatsoever: called
with a `bytes` buffer no longer than the storage it raises nothing and
`memmove` overwrites exactly the first `len(bytes)` bytes of the
instance's storage, leaving every byte from position `len(bytes)` on —
and hence every field decoded purely from those bytes — unchanged;
fields overlapping the overwritten region are partially updated rather
than retained. -/
theorem c1_parse_short_overwrites_head (data st : List Nat)
    (h : data.length ≤ st.length) :
    parseS (.bytes data) st = .ok (data ++ st.drop data.length) ∧
    (data ++ st.drop data.length).length = st.length ∧
    (∀ i, i < data.length → (data ++ st.drop data.length)[i]? = data[i]?) ∧
    (∀ i, data.length ≤ i → (data ++ st.drop data.length)[i]? = st[i]?) := by
  refine ⟨rfl, ?_, ?_, ?_⟩
  · simp only [List.length_append, List.length_drop]
    omega
  · intro i hi
    rw [List.getElem?_append]
    simp [hi]
  · intro i hi
    rw [List.getElem?_append_right hi, List.getElem?_drop]
    congr 1
    omega

theorem c1_parse_short_overwrites_head_witness :
    [0x01].length ≤ [0xAA, 0xFF].length ∧
    parseS (.bytes [0x01]) [0xAA, 0xFF] = .ok [0x01, 0xFF] := by
  refine ⟨by decide, ?_⟩
  exact ((c1_parse_short_overwrites_head [0x01] [0xAA, 0xFF]
    (by decide)).1).trans (by decide)

/-! Claim C2. -/

/-- C2 (code bug): assigning to a field of nested pyembc type always
raises TypeError, even when the assigned value is an Instance of exactly
the declared nested layout, because the generated `__setattr__` runs
`isinstance(value, field_type)` with the `PyembcFieldType` descriptor
object — not the class — as second argument, which Python rejects with
TypeError.  The first conjunct evaluates the failing input (a correct
Inner instance assigned to Outer.first); the second shows a wrong-typed
value also raises TypeError (the outcome the claim expects, through the
same accident). -/
theorem c2_nested_setattr_always_raises :
    setattrI outerInst "first" (.inst innerL innerVal) = .error .typeError ∧
    setattrI outerInst "first" (.int 5) = .error .typeError :=
  ⟨by decide, by decide⟩

/-! Claim C3. -/

/-- C3 (code bug): constructing the test union from its struct member,
`U(sl=SL(a=0xFFAA, b=1, c=2))`, raises TypeError in the generated
`__init__` (one keyword for two fields trips the arity check), and the
direct member assignment `u.sl = sl` raises TypeError as well (the
`isinstance(value, field_type)` slip of C2) — so the construction the
claim and the repository's own `test_union` describe cannot succeed.
The remaining conjuncts verify the byte-level aliasing facts the claim
states, which do hold of the shared storage: the storage image of the
struct value reads back as raw = 0x0201FFAA through a native u32 view on
a little-endian host, `parse()` of 87 65 43 21 fills the shared buffer
and the struct view then reads a=0x6587, b=0x43, c=0x21, and the union's
`stream()` returns the shared backing buffer as-is whenever the union's
endianness equals the host's (the only case `pyembc_union` admits). -/
theorem c3_union_aliasing :
    initInst unionInst [] [("sl", .inst SL slValue)] = .error .typeError ∧
    setattrI unionInst "sl" (.inst SL slValue) = .error .typeError ∧
    encV .little SL slValue = [0xAA, 0xFF, 0x01, 0x02] ∧
    decInt .little false 4 [0xAA, 0xFF, 0x01, 0x02] = 0x0201FFAA ∧
    parseS (.bytes [0x87, 0x65, 0x43, 0x21]) [0xAA, 0xFF, 0x01, 0x02] =
      .ok [0x87, 0x65, 0x43, 0x21] ∧
    decV .little SL [0x87, 0x65, 0x43, 0x21] =
      .vstruct (.vcons (.vint 0x6587)
        (.vcons (.vint 0x43) (.vcons (.vint 0x21) .vnil))) ∧
    (∀ buf : List Nat, streamUnion .little .little buf = buf) := by
  refine ⟨by decide, by decide, by decide, by decide, by decide, by decide, ?_⟩
  intro buf
  simp [streamUnion]

/-! Claim C4. -/

/-- C4: for every struct layout — either endianness, any positive pack,
arbitrary nesting of struct fields — and every instance whose fields
hold valid (assignment-accepted) values, feeding the instance's
`stream()` output to `parse()` of a freshly zero-initialized instance of
the same layout overwrites that instance's whole storage with the
encoded image, and every field of it (nested ones included) then decodes
to exactly the corresponding field value of the original instance. -/
theorem c4_roundtrip (e : Endian) (pack : Nat) (fs : Fields) (vs : Values)
    (hwf : wfT (.nested e pack fs) = true)
    (hv : validV (.nested e pack fs) (.vstruct vs) = true) :
    parseS (.bytes (streamStruct (encV e (.nested e pack fs) (.vstruct vs))))
        (zeros (ctSizeof (.nested e pack fs))) =
      .ok (encV e (.nested e pack fs) (.vstruct vs)) ∧
    decV e (.nested e pack fs) (encV e (.nested e pack fs) (.vstruct vs)) =
      .vstruct vs := by
  constructor
  · have hl := encV_length e (.nested e pack fs) (.vstruct vs) hwf hv
    simp only [parseS, streamStruct, hl]
    rw [show (zeros (ctSizeof (FTy.nested e pack fs))).drop
        (ctSizeof (FTy.nested e pack fs)) = [] from by simp [zeros],
      List.append_nil]
  · have h := decV_encV e (.nested e pack fs) (.vstruct vs) [] hwf hv
    rwa [List.append_nil] at h

theorem c4_roundtrip_witness :
    wfT (.nested .little 4 exOuterFields) = true ∧
    validV (.nested .little 4 exOuterFields) (.vstruct exVals) = true ∧
    (parseS (.bytes (streamStruct
        (encV .little (.nested .little 4 exOuterFields) (.vstruct exVals))))
        (zeros (ctSizeof (.nested .little 4 exOuterFields))) =
      .ok (encV .little (.nested .little 4 exOuterFields) (.vstruct exVals)) ∧
     decV .little (.nested .little 4 exOuterFields)
        (encV .little (.nested .little 4 exOuterFields) (.vstruct exVals)) =
      .vstruct exVals) :=
  ⟨by decide, by decide,
   c4_roundtrip .little 4 exOuterFields exVals (by decide) (by decide)⟩

/-! Claim C5. -/

/-- C5 counterexample: a declaration consisting of one full-width
bitfield — 8 declared bits over the 8-bit base `c_uint8` — does not
build: the opening branch of the grouping loop never applies the
group-closing equality check, so the group stays open and the
end-of-declarations check raises the incomplete-group SyntaxError.  This
refutes the claim that such a declaration builds successfully. -/
theorem c5_counterexample :
    errOf (pyembc_struct_build .little 4 [("a", .bitfield u8 8)]) =
      some .incompleteBitfield := by decide

/-- C5 (amended): a declaration list builds successfully whenever every
one of its bitfield runs consists of at least two same-base-type
bitfields with positive declared widths summing exactly to the base
type's bit width (plain and nested fields may be interleaved freely);
the claim's singleton case — one bitfield of full base width — is
excluded, since the builder only applies the group-closing equality
check from the second bitfield of a group onward and therefore rejects
it with the incomplete-group error. -/
theorem c5_exact_groups_build (decls : List Decl) (h : GoodDecls decls)
    (e : Endian) (pack : Nat) :
    isOk (pyembc_struct_build e pack decls) = true := by
  have hl := buildLoop_good decls h {} rfl
  simpa [pyembc_struct_build, generateClass, isOk_map] using hl

theorem c5_exact_groups_build_witness :
    isOk (pyembc_struct_build .little 4
      [("a", .bitfield u8 2), ("b", .bitfield u8 6), ("c", .plain u16)]) =
      true :=
  c5_exact_groups_build _
    (GoodDecls.group u8 [("a", 2), ("b", 6)] (by decide) (by decide)
      (by decide) (GoodDecls.plain "c" u16 GoodDecls.nil)) .little 4

/-! Claim C6. -/

/-- C6 counterexample: a lone 9-bit bitfield over the 8-bit base
`c_uint8` makes the open group's bits-consumed (9) exceed the base width
(8), yet the build fails with the incomplete-group SyntaxError, not the
bitfield-overflow one: the opening branch of the grouping loop performs
no overflow check, so the oversized opener is only caught by the
end-of-declarations incomplete-group check.  This refutes the claim that
every such declaration list fails with BitfieldOverflow. -/
theorem c6_counterexample :
    errOf (pyembc_struct_build .little 4 [("a", .bitfield u8 9)]) =
      some .incompleteBitfield ∧
    errOf (pyembc_struct_build .little 4 [("a", .bitfield u8 9)]) ≠
      some .bitfieldOverflow :=
  ⟨by decide, by decide⟩

/-- C6 (amended): the BitfieldOverflow error is raised exactly where the
excess is detected at a continuation bitfield: whenever an opening
bitfield of positive width `b1` is followed by a same-base bitfield of
width `b2` with `b1 + b2` exceeding the base type's bit width, the build
fails with the overflow SyntaxError no matter what follows.  A first
bitfield that is by itself wider than its base is not reported as
overflow (see the counterexample), and a differing base type on the
continuation is reported as the mixed-base error before the overflow
check. -/
theorem c6_overflow_at_continuation (e : Endian) (pack : Nat)
    (n1 n2 : String) (t : CTy) (b1 b2 : Nat) (rest : List Decl)
    (hb1 : 0 < b1) (hover : 8 * t.width < b1 + b2) :
    pyembc_struct_build e pack
      ((n1, .bitfield t b1) :: (n2, .bitfield t b2) :: rest) =
      .error .bitfieldOverflow := by
  have h1 : buildStep .struct false ({} : BState) (n1, .bitfield t b1) =
      .ok (openSt {} t b1, (n1, ⟨.simple t, some b1, some 0⟩)) :=
    buildStep_open {} n1 t b1 rfl
  have h2 : buildStep .struct rest.isEmpty (openSt {} t b1)
      (n2, .bitfield t b2) = .error .bitfieldOverflow :=
    buildStep_overflow .struct rest.isEmpty (openSt {} t b1) n2 t b2
      (by simp only [openSt]; omega) (by simp [openSt])
      (by simp only [openSt]; omega)
  simp [pyembc_struct_build, generateClass, buildLoop, h1, h2, Except.map,
    Functor.map]

theorem c6_overflow_at_continuation_witness :
    (0 < 1 ∧ 8 * u8.width < 1 + 8) ∧
    pyembc_struct_build .little 4
      [("a", .bitfield u8 1), ("b", .bitfield u8 8)] =
      .error .bitfieldOverflow :=
  ⟨⟨by decide, by decide⟩,
   c6_overflow_at_continuation .little 4 "a" "b" u8 1 8 [] (by decide)
     (by decide)⟩

/-! Claim C7. -/

/-- Claim-side fitting condition for a scalar or bitfield field: the
value lies in the `struct.pack` range of the declared width and
signedness, and for a bitfield also in the declared-bit-width range. -/
def fits (t : CTy) (bs : Option Nat) (v : Int) : Bool :=
  packable t v &&
    match bs with
    | none => true
    | some n =>
        if t.signed then
          decide (-(2 ^ (n - 1)) ≤ v) && decide (v ≤ 2 ^ (n - 1) - 1)
        else
          decide (0 ≤ v) && decide (v ≤ 2 ^ n - 1)

theorem check_eq_fits (t : CTy) (bs : Option Nat) (bo : Option Int)
    (v : Int) :
    check_value_for_type ⟨.simple t, bs, bo⟩ (.int v) =
      (if fits t bs v then .ok () else .error .valueError) := by
  obtain ⟨w, s⟩ := t
  cases bs with
  | none =>
      simp only [check_value_for_type, fits, Bool.and_true]
  | some n =>
      simp only [check_value_for_type, fits]
      by_cases hp : packable ⟨w, s⟩ v = true
      · cases s <;> simp [hp, Bool.and_eq_true, decide_eq_true_iff]
      · have hp2 : packable ⟨w, s⟩ v = false := by
          revert hp
          cases packable ⟨w, s⟩ v <;> simp
        simp [hp2]

/-- C7: on every scalar or bitfield field, assignment of an integer that
fits the declared width, signedness and (for bitfields) declared bit
width succeeds and stores the value, leaving all other fields untouched,
while assignment of a non-fitting integer raises ValueError and returns
without producing any new state — the prior values all survive. -/
theorem c7_scalar_assignment : ∀ (pre post : List Slot) (nm : String)
    (t : CTy) (bs : Option Nat) (bo : Option Int) (old : PyVal) (v : Int),
    (∀ q ∈ pre, q.name ≠ nm) →
    ((fits t bs v = true →
      setattrI (pre ++ ⟨nm, ⟨.simple t, bs, bo⟩, old⟩ :: post) nm (.int v) =
        .ok (pre ++ ⟨nm, ⟨.simple t, bs, bo⟩, .int v⟩ :: post)) ∧
     (fits t bs v = false →
      setattrI (pre ++ ⟨nm, ⟨.simple t, bs, bo⟩, old⟩ :: post) nm (.int v) =
        .error .valueError))
  | [], post, nm, t, bs, bo, old, v, _ => by
      constructor
      · intro hf
        simp [setattrI, setattrField, isPyembcType, check_eq_fits, hf,
          Functor.map, Except.map]
      · intro hf
        simp [setattrI, setattrField, isPyembcType, check_eq_fits, hf,
          Functor.map, Except.map]
  | q :: pre, post, nm, t, bs, bo, old, v, hpre => by
      have hq : ¬(nm = q.name) := by
        have := hpre q (by simp)
        exact fun h => this h.symm
      have ih := c7_scalar_assignment pre post nm t bs bo old v
        (fun p hp => hpre p (by simp [hp]))
      constructor
      · intro hf
        simp only [List.cons_append, setattrI, if_neg hq, List.append_eq,
          ih.1 hf, Functor.map, Except.map]
      · intro hf
        simp only [List.cons_append, setattrI, if_neg hq, List.append_eq,
          ih.2 hf, Functor.map, Except.map]

theorem c7_scalar_assignment_witness :
    (∀ q ∈ ([] : List Slot), q.name ≠ "x") ∧
    fits u8 none 0x1234 = false ∧
    setattrI [⟨"x", ⟨.simple u8, none, none⟩, .int 5⟩] "x" (.int 0x1234) =
      .error .valueError ∧
    fits u8 none 7 = true ∧
    setattrI [⟨"x", ⟨.simple u8, none, none⟩, .int 5⟩] "x" (.int 7) =
      .ok [⟨"x", ⟨.simple u8, none, none⟩, .int 7⟩] := by
  refine ⟨by simp, by decide, ?_, by decide, ?_⟩
  · exact (c7_scalar_assignment [] [] "x" u8 none none (.int 5) 0x1234
      (by simp)).2 (by decide)
  · exact (c7_scalar_assignment [] [] "x" u8 none none (.int 5) 7
      (by simp)).1 (by decide)

/-! Claim C8. -/

/-- C8 counterexample: building a union with explicit big endianness on
the little-endian host fails with NotImplementedError even though its
members (one big-endian struct, one raw u32) are perfectly consistent —
the decorator `pyembc_union` rejects any byte order other than
`sys.byteorder` before looking at the members, refuting the claim that
both endianness values are admissible for union builds. -/
theorem c8_counterexample :
    errOf (pyembc_union_build .little .big
      [("sb", .sub SB), ("raw", .plain u32)]) =
      some .notImplementedError := by decide

/-- C8 (amended): union endianness is restricted to the host byte
order: `pyembc_union` raises NotImplementedError for any declaration
list whenever the explicit endianness differs from `sys.byteorder`
(shown for both host orders); with the host's endianness the union
builds, failing only on the member-endianness consistency check; struct
builds accept both endianness values. -/
theorem c8_union_endian_host_only :
    (∀ decls : List Decl, pyembc_union_build .little .big decls =
      .error .notImplementedError) ∧
    (∀ decls : List Decl, pyembc_union_build .big .little decls =
      .error .notImplementedError) ∧
    isOk (pyembc_union_build .little .little
      [("sl", .sub SL), ("raw", .plain u32)]) = true ∧
    errOf (pyembc_union_build .little .little
      [("sl", .sub SL), ("sb", .sub SB)]) = some .endianMismatch ∧
    isOk (pyembc_struct_build .little 4 [("a", .plain u16)]) = true ∧
    isOk (pyembc_struct_build .big 4 [("a", .plain u16)]) = true :=
  ⟨fun _ => rfl, fun _ => rfl, by decide, by decide, by decide, by decide⟩

/-! Claim C9. -/

/-- C9: for a bitfield of declared bit width n ≥ 1 (the Python bound
`2 ** (bit_size - 1)` and the model agree on that domain), assignment
validation accepts an integer exactly when it lies in
[-2^(n-1), 2^(n-1) - 1] for a signed base type, respectively
[0, 2^n - 1] for an unsigned one, and is also packable in the base type
itself; every other integer is rejected. -/
theorem c9_bitfield_range (t : CTy) (n : Nat) (bo : Option Int) (v : Int)
    (hn : 1 ≤ n) :
    check_value_for_type ⟨.simple t, some n, bo⟩ (.int v) = .ok () ↔
      (packable t v = true ∧
       (if t.signed = true then -(2 ^ (n - 1)) ≤ v ∧ v ≤ 2 ^ (n - 1) - 1
        else 0 ≤ v ∧ v ≤ 2 ^ n - 1)) := by
  obtain ⟨w, s⟩ := t
  simp only [check_value_for_type]
  by_cases hp : packable ⟨w, s⟩ v = true
  · cases s <;> simp [hp]
  · have hp2 : packable ⟨w, s⟩ v = false := by
      revert hp
      cases packable ⟨w, s⟩ v <;> simp
    simp [hp2]

theorem c9_bitfield_range_witness :
    (1 ≤ 3) ∧
    (check_value_for_type ⟨.simple s8, some 3, none⟩ (.int (-4)) = .ok () ↔
      (packable s8 (-4) = true ∧
       (if s8.signed = true then
          -(2 ^ (3 - 1)) ≤ (-4 : Int) ∧ (-4 : Int) ≤ 2 ^ (3 - 1) - 1
        else 0 ≤ (-4 : Int) ∧ (-4 : Int) ≤ 2 ^ 3 - 1))) :=
  ⟨by decide, c9_bitfield_range s8 3 none (-4) (by decide)⟩

/-! Claim C10. -/

/-- C10: the generated `parse()` accepts only a `bytes` argument: a
bytearray or memoryview — of any length, in particular one holding at
least a full layout's worth of valid data — raises TypeError before the
`memmove`, so the instance's storage is untouched; a `bytes` argument
proceeds to the copy. -/
theorem c10_parse_rejects_non_bytes (data st : List Nat) :
    parseS (.bytearray data) st = .error .typeError ∧
    parseS (.memoryview data) st = .error .typeError ∧
    parseS (.bytes data) st = .ok (data ++ st.drop data.length) :=
  ⟨rfl, rfl, rfl⟩

end Pyembc
